import Mathlib

/-!
# The UDP echo handler of `seed/service.cpp`

A shallow embedding of the callback that `Service::start` registers with
`net.udp_listen(8080, ...)`, and the properties of it that can be settled on
the code.

The handler receives a pointer `data` and an `int len`.  The memory that can be
read through `data` is modelled as a list of bytes: the frame followed by
whatever lies behind it in the receive buffer.  A read past the end of that list
is a memory fault, the only way the handler can fail (`none`).

The declarations of `UDP::full_header`, `UDP::udp_header` and
`Ethernet::minimum_payload` live in the network stack, outside the service
source; the handler is parameterised by the sizes and field offsets it takes
from them (`Layout`).
-/

set_option maxRecDepth 8000

namespace Seed

/-- One `uint8_t`. -/
abbrev Byte := Fin 256

/-- What the handler uses of the header declarations: `sizeof(UDP::full_header)`,
`sizeof(UDP::udp_header)`, `Ethernet::minimum_payload`, the size of an address and
the byte offsets, from the start of the frame, of the five fields it reads. -/
structure Layout where
  sizeof_full_header : Nat
  sizeof_udp_header : Nat
  minimum_payload : Nat
  sizeof_addr : Nat
  saddr_at : Nat
  daddr_at : Nat
  sport_at : Nat
  dport_at : Nat
  length_at : Nat
deriving DecidableEq, Repr

/-- An instance of `Layout` for the concrete frames below: Ethernet II (14
bytes), IPv4 without options (20 bytes) and UDP (8 bytes), with the 46 byte
minimum Ethernet payload.  The general theorems hold for every `Layout`. -/
def ethIPv4 : Layout where
  sizeof_full_header := 42
  sizeof_udp_header := 8
  minimum_payload := 46
  sizeof_addr := 4
  saddr_at := 26
  daddr_at := 30
  sport_at := 34
  dport_at := 36
  length_at := 38

/-! ## Memory reads -/

/-- Read `n` bytes at offset `off`; a struct member copied by value. -/
def loadBytes (data : List Byte) (off n : Nat) : Option (List Byte) :=
  if off + n ≤ data.length then some ((data.drop off).take n) else none

/-- Read a `uint16_t` member on the little-endian host: the byte at the lower
address is the low byte. -/
def load16 (data : List Byte) (off : Nat) : Option Nat :=
  match data.get? off, data.get? (off + 1) with
  | some b0, some b1 => some (b0.val + 256 * b1.val)
  | _, _ => none

/-- The builtin `__builtin_bswap16` on a 16-bit value. -/
def bswap16 (x : Nat) : Nat :=
  (x % 256) * 256 + (x / 256) % 256

/-- Walk memory from index `i` to the first NUL byte, as `strlen` and the
`std::string(const char*)` constructor do: the characters before the NUL and the
indexes dereferenced (the NUL's index included).  Running off the readable
memory is a fault. -/
def scan : List Byte → Nat → Option (List Byte × List Nat)
  | [], _ => none
  | b :: rest, i =>
    if b = 0 then some ([], [i])
    else match scan rest (i + 1) with
      | none => none
      | some (s, visited) => some (b :: s, i :: visited)

/-- The C string at `data + off`, with the indexes of `data` read to find it. -/
def c_str (data : List Byte) (off : Nat) : Option (List Byte × List Nat) :=
  scan (data.drop off) off

/-! ## Strings and integers -/

/-- The bytes of a string literal. -/
def lit (s : String) : List Byte :=
  s.toList.map (fun c => Fin.ofNat c.toNat)

/-- The expression `"You said: '"+string((const char*)data_loc)+"' \n"`. -/
def response (text : List Byte) : List Byte :=
  lit "You said: '" ++ text ++ lit "' \n"

/-- Conversion of a `size_t` value to `int`: the low 32 bits, two's complement. -/
def toInt32 (n : Nat) : Int :=
  if n % 2 ^ 32 < 2 ^ 31 then ((n % 2 ^ 32 : Nat) : Int)
  else ((n % 2 ^ 32 : Nat) : Int) - 2 ^ 32

/-! ## The heap and the globals -/

/-- An array made by `new uint8_t[n]`: its cells (`none` while never written)
and whether it has not been released yet. -/
structure Block where
  cells : List (Option Byte)
  live : Bool
deriving DecidableEq, Repr

/-- Apply `f` to the block at address `p`; no block there, no change. -/
def modifyAt (f : Block → Block) : List Block → Nat → List Block
  | [], _ => []
  | b :: bs, 0 => f b :: bs
  | b :: bs, p + 1 => b :: modifyAt f bs p

/-- The globals `buf`, `bufsize`, `prev_data` of the service, with the heap that
`buf` points into.  A pointer is the index of its block; `none` is the null
pointer. -/
structure Globals where
  heap : List Block
  buf : Option Nat
  bufsize : Int
  prev_data : Option Nat
deriving DecidableEq, Repr

/-- The state at service start: `buf = 0`, `bufsize = 0`, `prev_data = 0`. -/
def Globals.init : Globals :=
  { heap := [], buf := none, bufsize := 0, prev_data := none }

/-- Number of blocks allocated and not released. -/
def liveCount (heap : List Block) : Nat :=
  (heap.filter (fun b => b.live)).length

/-- The statement `if(buf) delete[] buf;`. -/
def retire (g : Globals) : Globals :=
  match g.buf with
  | none => g
  | some p => { g with heap := modifyAt (fun b => { b with live := false }) g.heap p }

/-- The statement `buf = new uint8_t[bufsize];`: a fresh block of `bufsize` cells
nobody has written. -/
def allocate (g : Globals) : Globals :=
  { g with heap := g.heap ++ [{ cells := List.replicate g.bufsize.toNat none, live := true }],
           buf := some g.heap.length }

/-- The byte stores of `strcpy(dst, src)`: every character of `src` and then the
terminating NUL, at consecutive indexes from `dst` on. -/
def strcpyWrites (dst : Nat) : List Byte → List (Nat × Byte)
  | [] => [(dst, 0)]
  | c :: cs => (dst, c) :: strcpyWrites (dst + 1) cs

/-- One byte store into an array.  A store at an index the array does not have
lands outside the array and leaves its cells as they are. -/
def poke (cells : List (Option Byte)) (w : Nat × Byte) : List (Option Byte) :=
  cells.set w.1 (some w.2)

/-- The statement `strcpy((char*)buf + dst, src)` on the block `buf` points to. -/
def strcpy (g : Globals) (dst : Nat) (src : List Byte) : Globals :=
  match g.buf with
  | none => g
  | some p =>
    { g with heap :=
        modifyAt (fun b => { b with cells := (strcpyWrites dst src).foldl poke b.cells }) g.heap p }

/-! ## The handler -/

/-- Modelled from the spec: the declaration of `udp_send` is not in the service
source; the spec gives the send primitive as
`send(dst_addr, dst_port, src_addr, src_port, buffer, length)`, and the fields
are the six arguments of the call in that order. -/
structure UdpSend where
  dst_addr : List Byte
  dst_port : Nat
  src_addr : List Byte
  src_port : Nat
  buffer : Option Nat
  length : Int
deriving DecidableEq, Repr

/-- The values printed by the first `debug` line. -/
structure DebugGot where
  data_len : Int
  len : Int
  saddr : List Byte
  sport : Nat
  daddr : List Byte
  dport : Nat
deriving DecidableEq, Repr

/-- What one run of the handler does: its return value, the `udp_send` call, the
globals and heap it leaves (with the states after each of the statements that
touch them), its locals `data_len` and `data_end` (an offset from `data`), its
output, the indexes of `data` it read to build the response string and the byte
stores of its `strcpy`. -/
structure Handled where
  status : Int
  send : UdpSend
  globals : Globals
  steps : List Globals
  data_len : Int
  data_end : Int
  got : DebugGot
  sending : Nat × Int
  printed : List Byte
  stringReads : List Nat
  writes : List (Nat × Byte)
deriving DecidableEq, Repr

/-- The callback given to `net.udp_listen(8080, ...)`, statement by statement. -/
def handler (L : Layout) (g : Globals) (data : List Byte) (len : Int) : Option Handled := do
  -- int data_len = __builtin_bswap16(hdr->length);
  let length ← load16 data L.length_at
  let data_len : Int := (bswap16 length : Nat)
  -- auto data_loc = data + sizeof(UDP::full_header);
  let data_loc := L.sizeof_full_header
  -- auto data_end = data + hdr->length - sizeof(UDP::udp_header) -1;
  let data_end : Int := (length : Int) - (L.sizeof_udp_header : Int) - 1
  -- debug("<APP SERVER> Got %i b of data (%i b frame) from %s:%i -> %s:%i\n", ...)
  let saddr ← loadBytes data L.saddr_at L.sizeof_addr
  let sport ← load16 data L.sport_at
  let daddr ← loadBytes data L.daddr_at L.sizeof_addr
  let dport ← load16 data L.dport_at
  let got : DebugGot :=
    { data_len := data_len, len := len, saddr := saddr, sport := bswap16 sport,
      daddr := daddr, dport := bswap16 dport }
  -- printf("%s", data_loc);
  -- string response("You said: '"+string((const char*)data_loc)+"' \n");
  let (text, visited) ← c_str data data_loc
  let resp := response text
  -- bufsize = response.size() + sizeof(UDP::full_header);
  let g1 : Globals := { g with bufsize := toInt32 (resp.length + L.sizeof_full_header) }
  -- if (bufsize < Ethernet::minimum_payload) bufsize = Ethernet::minimum_payload;
  let g2 : Globals :=
    if g1.bufsize < (L.minimum_payload : Int) then { g1 with bufsize := L.minimum_payload } else g1
  -- if(buf) delete[] buf;
  let g3 := retire g2
  -- buf = new uint8_t[bufsize];
  let g4 := allocate g3
  -- strcpy((char*)buf + sizeof(UDP::full_header),response.c_str());
  let g5 := strcpy g4 L.sizeof_full_header resp
  -- net.udp_send(full_hdr->ip_hdr.daddr, hdr->dport, full_hdr->ip_hdr.saddr, hdr->sport, buf, bufsize);
  let send : UdpSend :=
    { dst_addr := daddr, dst_port := dport, src_addr := saddr, src_port := sport,
      buffer := g5.buf, length := g5.bufsize }
  -- return 0;
  pure
    { status := 0, send := send, globals := g5, steps := [g1, g2, g3, g4, g5],
      data_len := data_len, data_end := data_end, got := got,
      sending := (resp.length, g5.bufsize), printed := text,
      stringReads := visited, writes := strcpyWrites L.sizeof_full_header resp }

/-- The cells of the buffer handed to `udp_send`. -/
def Handled.replyCells (o : Handled) : List (Option Byte) :=
  match o.send.buffer with
  | none => []
  | some p => match o.globals.heap.get? p with
    | none => []
    | some b => b.cells

/-- The `n` cells of the reply buffer from offset `off` on. -/
def Handled.replyPayload (o : Handled) (off n : Nat) : List (Option Byte) :=
  (o.replyCells.drop off).take n

/-- Headers (zeroed where the handler does not look) of a datagram of
Ethernet/IPv4/UDP from 10.0.0.1:1000 to 10.0.0.42:8080 whose UDP length field
holds the bytes `l0 l1`. -/
def headers (l0 l1 : Byte) : List Byte :=
  List.replicate 26 0 ++ [10, 0, 0, 1] ++ [10, 0, 0, 42] ++ [0x03, 0xE8] ++ [0x1F, 0x90]
    ++ [l0, l1] ++ [0, 0]

/-- A 48 byte frame carrying `hello` and a NUL, declared UDP length 14. -/
def helloFrame : List Byte :=
  headers 0 14 ++ lit "hello" ++ [0]

/-- The five header fields the handler reads lie in readable memory. -/
def HeaderReadable (L : Layout) (data : List Byte) : Prop :=
  (load16 data L.length_at).isSome = true ∧
  (loadBytes data L.saddr_at L.sizeof_addr).isSome = true ∧
  (load16 data L.sport_at).isSome = true ∧
  (loadBytes data L.daddr_at L.sizeof_addr).isSome = true ∧
  (load16 data L.dport_at).isSome = true

/-- The memory behind `data` holds everything the handler reads: the five header
fields and a NUL byte somewhere from offset `sizeof(UDP::full_header)` on. -/
def Readable (L : Layout) (data : List Byte) : Prop :=
  HeaderReadable L data ∧ (c_str data L.sizeof_full_header).isSome = true

instance (L : Layout) (data : List Byte) : Decidable (HeaderReadable L data) := by
  unfold HeaderReadable
  infer_instance

instance (L : Layout) (data : List Byte) : Decidable (Readable L data) := by
  unfold Readable
  infer_instance

/-- The value of `bufsize` after the padding test, for the payload text `text`. -/
def bufsizeOf (L : Layout) (text : List Byte) : Int :=
  if toInt32 ((response text).length + L.sizeof_full_header) < (L.minimum_payload : Int)
  then (L.minimum_payload : Int)
  else toInt32 ((response text).length + L.sizeof_full_header)

/-- The cells of the fresh array after the `strcpy`, for the payload text `text`. -/
def replyBuf (L : Layout) (text : List Byte) : List (Option Byte) :=
  (strcpyWrites L.sizeof_full_header (response text)).foldl poke
    (List.replicate (bufsizeOf L text).toNat none)

/-- The handler run on a sequence of `(data, len)` calls, one after the other. -/
def run (L : Layout) : Globals → List (List Byte × Int) → Option Globals
  | g, [] => some g
  | g, f :: fs =>
    match handler L g f.1 f.2 with
    | none => none
    | some o => run L o.globals fs

/-- Every state of the globals and heap passed through while `run` works. -/
def runSteps (L : Layout) : Globals → List (List Byte × Int) → List Globals
  | _, [] => []
  | g, f :: fs =>
    match handler L g f.1 f.2 with
    | none => []
    | some o => o.steps ++ runSteps L o.globals fs

/-- The slot discipline: either `buf` is null and no block is live, or `buf`
points to the newest block, which is live, and every older block is released. -/
def Slot (g : Globals) : Prop :=
  (g.buf = none ∧ ∀ b ∈ g.heap, b.live = false) ∨
  (∃ pre last, g.heap = pre ++ [last] ∧ g.buf = some pre.length ∧ last.live = true ∧
    ∀ b ∈ pre, b.live = false)

/-! ## Lemmas on the heap and on `strcpy` -/

theorem length_modifyAt (f : Block → Block) (heap : List Block) (p : Nat) :
    (modifyAt f heap p).length = heap.length := by
  induction heap generalizing p with
  | nil => rfl
  | cons b bs ih => cases p <;> simp [modifyAt, ih]

theorem modifyAt_append_last (f : Block → Block) (pre : List Block) (b : Block) :
    modifyAt f (pre ++ [b]) pre.length = pre ++ [f b] := by
  induction pre with
  | nil => rfl
  | cons x xs ih => simp [modifyAt, ih]

theorem length_pokes (ws : List (Nat × Byte)) (cells : List (Option Byte)) :
    (ws.foldl poke cells).length = cells.length := by
  induction ws generalizing cells with
  | nil => rfl
  | cons w ws ih => simp [List.foldl, ih, poke]

theorem getElem?_pokes_strcpy (src : List Byte) (dst : Nat) (cells : List (Option Byte)) (j : Nat) :
    ((strcpyWrites dst src).foldl poke cells)[j]? =
      if dst ≤ j ∧ j ≤ dst + src.length ∧ j < cells.length
      then ((src ++ [0])[j - dst]?).map some else cells[j]? := by
  induction src generalizing dst cells with
  | nil =>
    simp only [strcpyWrites, List.foldl, poke, List.getElem?_set, List.length_nil, Nat.add_zero,
      List.nil_append]
    by_cases hj : dst = j
    · subst hj
      by_cases hl : dst < cells.length
      · simp [hl]
      · simp [hl, List.getElem?_eq_none (Nat.le_of_not_lt hl)]
    · have : ¬ (dst ≤ j ∧ j ≤ dst ∧ j < cells.length) := by omega
      simp [hj, this]
  | cons c cs ih =>
    simp only [strcpyWrites, List.foldl]
    rw [ih]
    simp only [poke, List.length_set, List.getElem?_set, List.length_cons, List.cons_append]
    by_cases hj : dst = j
    · subst hj
      have h1 : ¬ (dst + 1 ≤ dst ∧ dst ≤ dst + 1 + cs.length ∧ dst < cells.length) := by omega
      by_cases hl : dst < cells.length
      · simp [hl]
      · simp [hl, List.getElem?_eq_none (Nat.le_of_not_lt hl)]
    · by_cases hlt : dst < j
      · obtain ⟨k, rfl⟩ : ∃ k, j = dst + 1 + k := ⟨j - dst - 1, by omega⟩
        have e1 : dst + 1 + k - (dst + 1) = k := by omega
        have e2 : dst + 1 + k - dst = k + 1 := by omega
        simp only [e1, e2, List.getElem?_cons_succ, hj, if_false]
        by_cases hc : dst + 1 ≤ dst + 1 + k ∧ dst + 1 + k ≤ dst + 1 + cs.length ∧ dst + 1 + k < cells.length
        · have hc2 : dst ≤ dst + 1 + k ∧ dst + 1 + k ≤ dst + (cs.length + 1) ∧ dst + 1 + k < cells.length := by omega
          rw [if_pos hc, if_pos hc2]
        · have hc2 : ¬ (dst ≤ dst + 1 + k ∧ dst + 1 + k ≤ dst + (cs.length + 1) ∧ dst + 1 + k < cells.length) := by omega
          rw [if_neg hc, if_neg hc2]
      · have h1 : ¬ (dst + 1 ≤ j ∧ j ≤ dst + 1 + cs.length ∧ j < cells.length) := by omega
        have h2 : ¬ (dst ≤ j ∧ j ≤ dst + (cs.length + 1) ∧ j < cells.length) := by omega
        simp [h1, h2, hj]

/-! ## Lemmas on the string scan -/

theorem scan_some {m : List Byte} {i : Nat} {p : List Byte} {v : List Nat}
    (h : scan m i = some (p, v)) :
    v = List.range' i (p.length + 1) ∧ (∀ b ∈ p, b ≠ 0) ∧ ∃ rest, m = p ++ 0 :: rest := by
  induction m generalizing i p v with
  | nil => simp [scan] at h
  | cons b rest ih =>
    unfold scan at h
    by_cases hb : b = 0
    · simp only [hb, if_true, Option.some.injEq, Prod.mk.injEq] at h
      obtain ⟨rfl, rfl⟩ := h
      exact ⟨rfl, by simp, rest, by simp [hb]⟩
    · simp only [hb, if_false] at h
      cases hs : scan rest (i + 1) with
      | none => simp [hs] at h
      | some r =>
        obtain ⟨s, w⟩ := r
        simp only [hs, Option.some.injEq, Prod.mk.injEq] at h
        obtain ⟨rfl, rfl⟩ := h
        obtain ⟨hw, hnz, tl, htl⟩ := ih hs
        refine ⟨?_, ?_, tl, ?_⟩
        · rw [hw]; rfl
        · intro x hx
          rcases List.mem_cons.1 hx with rfl | hx
          · exact hb
          · exact hnz x hx
        · simp [htl]

theorem scan_terminated (p rest : List Byte) (i : Nat) (hp : ∀ b ∈ p, b ≠ 0) :
    scan (p ++ 0 :: rest) i = some (p, List.range' i (p.length + 1)) := by
  induction p generalizing i with
  | nil => simp [scan]
  | cons b bs ih =>
    have hb : b ≠ 0 := hp b (List.mem_cons_self _ _)
    have hbs : ∀ x ∈ bs, x ≠ 0 := fun x hx => hp x (List.mem_cons_of_mem _ hx)
    have e : scan (b :: (bs ++ 0 :: rest)) i =
        match scan (bs ++ 0 :: rest) (i + 1) with
        | none => none
        | some (s, visited) => some (b :: s, i :: visited) := by
      simp [scan, hb]
    rw [List.cons_append, e, ih (i + 1) hbs]
    rfl

/-! ## What a run of the handler is made of -/

theorem retire_heap_length (g : Globals) : (retire g).heap.length = g.heap.length := by
  obtain ⟨heap, buf, bufsize, prev⟩ := g
  cases buf <;> simp [retire, length_modifyAt]

theorem retire_with_bufsize (g : Globals) (B : Int) :
    retire { g with bufsize := B } = { retire g with bufsize := B } := by
  obtain ⟨heap, buf, bufsize, prev⟩ := g
  cases buf <;> rfl

theorem retire_fields (g : Globals) :
    (retire g).buf = g.buf ∧ (retire g).bufsize = g.bufsize ∧ (retire g).prev_data = g.prev_data := by
  obtain ⟨heap, buf, bufsize, prev⟩ := g
  cases buf <;> simp [retire]

theorem strcpy_allocate (g : Globals) (dst : Nat) (src : List Byte) :
    strcpy (allocate g) dst src =
      { heap := g.heap ++ [{ cells := (strcpyWrites dst src).foldl poke
                               (List.replicate g.bufsize.toNat none), live := true }],
        buf := some g.heap.length, bufsize := g.bufsize, prev_data := g.prev_data } := by
  simp only [strcpy, allocate]
  rw [modifyAt_append_last]

theorem clamp_eq (L : Layout) (g : Globals) (text : List Byte) :
    (if toInt32 ((response text).length + L.sizeof_full_header) < (L.minimum_payload : Int)
      then ({ g with bufsize := (L.minimum_payload : Int) } : Globals)
      else { g with bufsize := toInt32 ((response text).length + L.sizeof_full_header) })
      = { g with bufsize := bufsizeOf L text } := by
  unfold bufsizeOf
  split <;> rfl

theorem built_globals (L : Layout) (g : Globals) (text : List Byte) :
    strcpy (allocate { retire g with bufsize := bufsizeOf L text }) L.sizeof_full_header
        (response text) =
      { heap := (retire g).heap ++ [{ cells := replyBuf L text, live := true }],
        buf := some g.heap.length, bufsize := bufsizeOf L text, prev_data := g.prev_data } := by
  rw [strcpy_allocate]
  simp only [retire_heap_length, (retire_fields g).2.2]
  rfl

theorem handler_inv {L : Layout} {g : Globals} {data : List Byte} {len : Int} {o : Handled}
    (h : handler L g data len = some o) :
    ∃ length saddr sport daddr dport text visited,
      load16 data L.length_at = some length ∧
      loadBytes data L.saddr_at L.sizeof_addr = some saddr ∧
      load16 data L.sport_at = some sport ∧
      loadBytes data L.daddr_at L.sizeof_addr = some daddr ∧
      load16 data L.dport_at = some dport ∧
      c_str data L.sizeof_full_header = some (text, visited) ∧
      o.status = 0 ∧
      o.send = { dst_addr := daddr, dst_port := dport, src_addr := saddr, src_port := sport,
                 buffer := some g.heap.length, length := bufsizeOf L text } ∧
      o.globals = { heap := (retire g).heap ++ [{ cells := replyBuf L text, live := true }],
                    buf := some g.heap.length, bufsize := bufsizeOf L text,
                    prev_data := g.prev_data } ∧
      o.steps = [{ g with bufsize := toInt32 ((response text).length + L.sizeof_full_header) },
                 { g with bufsize := bufsizeOf L text },
                 { retire g with bufsize := bufsizeOf L text },
                 allocate { retire g with bufsize := bufsizeOf L text },
                 o.globals] ∧
      o.data_len = (bswap16 length : Nat) ∧
      o.data_end = (length : Int) - (L.sizeof_udp_header : Int) - 1 ∧
      o.got.data_len = o.data_len ∧
      o.sending = ((response text).length, bufsizeOf L text) ∧
      o.printed = text ∧ o.stringReads = visited ∧
      o.writes = strcpyWrites L.sizeof_full_header (response text) := by
  unfold handler at h
  simp only [bind, Option.bind_eq_some, pure, clamp_eq, built_globals, retire_with_bufsize] at h
  obtain ⟨length, h1, saddr, h2, sport, h3, daddr, h4, dport, h5, ⟨text, visited⟩, h6, h7⟩ := h
  refine ⟨length, saddr, sport, daddr, dport, text, visited, h1, h2, h3, h4, h5, h6, ?_⟩
  simp only [Option.some.injEq] at h7
  subst h7
  simp [clamp_eq, built_globals, retire_with_bufsize]

theorem handler_exists {L : Layout} {data : List Byte} (hr : Readable L data)
    (g : Globals) (len : Int) : ∃ o, handler L g data len = some o := by
  obtain ⟨⟨h1, h2, h3, h4, h5⟩, h6⟩ := hr
  obtain ⟨length, e1⟩ := Option.isSome_iff_exists.1 h1
  obtain ⟨saddr, e2⟩ := Option.isSome_iff_exists.1 h2
  obtain ⟨sport, e3⟩ := Option.isSome_iff_exists.1 h3
  obtain ⟨daddr, e4⟩ := Option.isSome_iff_exists.1 h4
  obtain ⟨dport, e5⟩ := Option.isSome_iff_exists.1 h5
  obtain ⟨tv, e6⟩ := Option.isSome_iff_exists.1 h6
  unfold handler
  simp [bind, pure, e1, e2, e3, e4, e5, e6]

theorem load16_append {frame : List Byte} (rest : List Byte) {off : Nat}
    (h : (load16 frame off).isSome = true) : load16 (frame ++ rest) off = load16 frame off := by
  by_cases hlt : off + 1 < frame.length
  · unfold load16
    rw [List.get?_eq_getElem?, List.get?_eq_getElem?, List.get?_eq_getElem?,
      List.get?_eq_getElem?, List.getElem?_append_left hlt,
      List.getElem?_append_left (by omega : off < frame.length)]
  · have hn : frame.get? (off + 1) = none := by
      rw [List.get?_eq_getElem?]
      exact List.getElem?_eq_none (by omega)
    unfold load16 at h
    rw [hn] at h
    cases h0 : frame.get? off <;> simp [h0] at h

theorem loadBytes_append {frame : List Byte} (rest : List Byte) {off n : Nat}
    (h : (loadBytes frame off n).isSome = true) :
    loadBytes (frame ++ rest) off n = loadBytes frame off n := by
  unfold loadBytes at h ⊢
  by_cases hle : off + n ≤ frame.length
  · have hle2 : off + n ≤ (frame ++ rest).length := by
      rw [List.length_append]; omega
    rw [if_pos hle, if_pos hle2, List.drop_append_of_le_length (by omega),
      List.take_append_of_le_length (by rw [List.length_drop]; omega)]
  · rw [if_neg hle] at h
    simp at h

theorem c_str_append {frame : List Byte} (rest : List Byte) {off : Nat}
    (h : (c_str frame off).isSome = true) : c_str (frame ++ rest) off = c_str frame off := by
  obtain ⟨⟨p, v⟩, hpv⟩ := Option.isSome_iff_exists.1 h
  have hlt : off < frame.length := by
    by_contra hge
    unfold c_str at hpv
    rw [List.drop_eq_nil_of_le (by omega)] at hpv
    simp [scan] at hpv
  obtain ⟨hv, hnz, tl, htl⟩ := scan_some hpv
  rw [hpv]
  unfold c_str
  rw [List.drop_append_of_le_length (by omega), htl, hv, List.append_assoc, List.cons_append]
  exact scan_terminated p (tl ++ rest) off hnz

theorem handler_append {L : Layout} {frame : List Byte} (hr : Readable L frame)
    (g : Globals) (rest : List Byte) (len : Int) :
    handler L g (frame ++ rest) len = handler L g frame len := by
  obtain ⟨⟨h1, h2, h3, h4, h5⟩, h6⟩ := hr
  simp only [handler, load16_append rest h1, loadBytes_append rest h2, load16_append rest h3,
    loadBytes_append rest h4, load16_append rest h5, c_str_append rest h6]

/-! ## Sizes and contents of the reply buffer -/

theorem toInt32_of_lt {n : Nat} (h : n < 2 ^ 31) : toInt32 n = (n : Int) := by
  have h1 : n % 2 ^ 32 = n := Nat.mod_eq_of_lt (by omega)
  unfold toInt32
  rw [h1, if_pos h]

theorem minimum_le_bufsizeOf (L : Layout) (text : List Byte) :
    (L.minimum_payload : Int) ≤ bufsizeOf L text := by
  unfold bufsizeOf
  split <;> omega

theorem bufsizeOf_of_fit {L : Layout} {text : List Byte}
    (hfit : L.sizeof_full_header + (response text).length < 2 ^ 31) :
    bufsizeOf L text =
      max (L.minimum_payload : Int) ((L.sizeof_full_header + (response text).length : Nat) : Int) := by
  unfold bufsizeOf
  rw [toInt32_of_lt (by omega : (response text).length + L.sizeof_full_header < 2 ^ 31)]
  split <;> omega

theorem length_replyBuf (L : Layout) (text : List Byte) :
    ((replyBuf L text).length : Int) = bufsizeOf L text := by
  have h := minimum_le_bufsizeOf L text
  unfold replyBuf
  rw [length_pokes, List.length_replicate]
  omega

theorem length_response (text : List Byte) : (response text).length = text.length + 14 := by
  simp only [response, List.length_append]
  have h1 : (lit "You said: '").length = 11 := by decide
  have h2 : (lit "' \n").length = 3 := by decide
  omega

theorem replyCells_eq {L : Layout} {g : Globals} {data : List Byte} {len : Int} {o : Handled}
    {text : List Byte} {visited : List Nat} (h : handler L g data len = some o)
    (ht : c_str data L.sizeof_full_header = some (text, visited)) :
    o.replyCells = replyBuf L text := by
  obtain ⟨length, saddr, sport, daddr, dport, text', visited', -, -, -, -, -, h6, -, hs, hg, -⟩ :=
    handler_inv h
  rw [ht] at h6
  simp only [Option.some.injEq, Prod.mk.injEq] at h6
  obtain ⟨rfl, rfl⟩ := h6
  have hl : ((retire g).heap ++ [({ cells := replyBuf L text, live := true } : Block)]).get?
      g.heap.length = some { cells := replyBuf L text, live := true } := by
    rw [← retire_heap_length g]
    simp
  simp only [Handled.replyCells, hs, hg, hl]

theorem payload_of_replyBuf {L : Layout} {text : List Byte}
    (hfit : L.sizeof_full_header + (response text).length < 2 ^ 31) :
    ((replyBuf L text).drop L.sizeof_full_header).take (response text).length =
      (response text).map some := by
  have hb := bufsizeOf_of_fit hfit
  have hsize : L.sizeof_full_header + (response text).length ≤ (bufsizeOf L text).toNat := by
    omega
  apply List.ext_getElem?
  intro i
  rw [List.getElem?_take, List.getElem?_drop, List.getElem?_map]
  by_cases hi : i < (response text).length
  · rw [if_pos hi]
    unfold replyBuf
    rw [getElem?_pokes_strcpy, List.length_replicate]
    have hc : L.sizeof_full_header ≤ L.sizeof_full_header + i ∧
        L.sizeof_full_header + i ≤ L.sizeof_full_header + (response text).length ∧
        L.sizeof_full_header + i < (bufsizeOf L text).toNat := by omega
    rw [if_pos hc, Nat.add_sub_cancel_left, List.getElem?_append_left hi]
  · rw [if_neg hi, List.getElem?_eq_none (Nat.le_of_not_lt hi)]
    rfl

theorem strcpyWrites_terminator (dst : Nat) (src : List Byte) :
    (dst + src.length, (0 : Byte)) ∈ strcpyWrites dst src := by
  induction src generalizing dst with
  | nil => simp [strcpyWrites]
  | cons c cs ih =>
    have e : dst + (c :: cs).length = dst + 1 + cs.length := by simp; omega
    rw [e]
    exact List.mem_cons_of_mem _ (ih (dst + 1))

theorem strcpyWrites_range (dst : Nat) (src : List Byte) :
    ∀ w ∈ strcpyWrites dst src, dst ≤ w.1 ∧ w.1 ≤ dst + src.length := by
  induction src generalizing dst with
  | nil => simp [strcpyWrites]
  | cons c cs ih =>
    intro w hw
    rcases List.mem_cons.1 hw with rfl | hw
    · simp
    · have := ih (dst + 1) w hw
      simp only [List.length_cons]
      omega

/-! ## The claims -/

/-- C1: for every frame the handler answers, the buffer it allocates has as many
cells as the length it passes to `udp_send`, that length is never below
`Ethernet::minimum_payload`, and, the sum fitting the `int bufsize`, it is the
larger of `Ethernet::minimum_payload` and
`sizeof(UDP::full_header) + response.size()`. -/
theorem reply_length_is_padded_sum (L : Layout) (g : Globals) (data : List Byte) (len : Int)
    (o : Handled) (h : handler L g data len = some o) :
    ∃ text visited, c_str data L.sizeof_full_header = some (text, visited) ∧
      o.sending.1 = (response text).length ∧
      (o.replyCells.length : Int) = o.send.length ∧
      (L.minimum_payload : Int) ≤ o.send.length ∧
      (L.sizeof_full_header + (response text).length < 2 ^ 31 →
        o.send.length =
          max (L.minimum_payload : Int)
            ((L.sizeof_full_header + (response text).length : Nat) : Int)) := by
  obtain ⟨length, saddr, sport, daddr, dport, text, visited, -, -, -, -, -, h6, -, hs, -, -,
    -, -, -, hsend, -⟩ := handler_inv h
  have hc := replyCells_eq h h6
  refine ⟨text, visited, h6, ?_, ?_, ?_, ?_⟩
  · rw [hsend]
  · rw [hc, hs]; exact length_replyBuf L text
  · rw [hs]; exact minimum_le_bufsizeOf L text
  · intro hfit
    rw [hs]
    exact bufsizeOf_of_fit hfit

/-- Witness for C1: the handler answers the 48 byte `hello` frame with a 61 byte
buffer, 42 bytes of headers and the 19 bytes of the response. -/
theorem reply_length_is_padded_sum_witness :
    ∃ o, handler ethIPv4 Globals.init helloFrame 48 = some o ∧
      o.sending.1 = 19 ∧ o.send.length = 61 ∧ (o.replyCells.length : Int) = 61 := by
  have e : handler ethIPv4 Globals.init helloFrame 48 = some _ := rfl
  obtain ⟨text, visited, ht, hn, hc, -, hmax⟩ :=
    reply_length_is_padded_sum ethIPv4 Globals.init helloFrame 48 _ e
  have ht2 : c_str helloFrame ethIPv4.sizeof_full_header
      = some (lit "hello", [42, 43, 44, 45, 46, 47]) := by decide
  rw [ht2] at ht
  simp only [Option.some.injEq, Prod.mk.injEq] at ht
  obtain ⟨rfl, rfl⟩ := ht
  have hlen := hmax (by decide)
  have e2 : max ((ethIPv4.minimum_payload : Nat) : Int)
      ((ethIPv4.sizeof_full_header + (response (lit "hello")).length : Nat) : Int) = 61 := by
    decide
  rw [e2] at hlen
  exact ⟨_, e, hn, hlen, hlen ▸ hc⟩

/-- C2, counterexample: called with `len = 10`, less than the 42 bytes of headers,
on memory that holds the `hello` datagram, the handler returns 0 and calls
`udp_send` with a 61 byte buffer. -/
theorem short_len_is_answered :
    (10 : Int) < (ethIPv4.sizeof_full_header : Int) ∧
    ∃ o, handler ethIPv4 Globals.init helloFrame 10 = some o ∧ o.status = 0 ∧
      o.send = { dst_addr := [10, 0, 0, 42], dst_port := 36895, src_addr := [10, 0, 0, 1],
                 src_port := 59395, buffer := some 0, length := 61 } :=
  ⟨by decide, _, rfl, by decide, by decide⟩

/-- C2, amended: the handler never tests `len`.  For every call, those with `len`
smaller than `sizeof(UDP::full_header)` included, on memory that holds the
header fields and a NUL-terminated string behind them, it returns 0 and issues
the `udp_send` it issues for any other value of `len`. -/
theorem frame_len_is_not_checked (L : Layout) (g : Globals) (data : List Byte) (len : Int)
    (hr : Readable L data) :
    ∃ o, handler L g data len = some o ∧ o.status = 0 ∧
      ∀ len2, (handler L g data len2).map (fun o2 => (o2.status, o2.send)) =
        some (0, o.send) := by
  obtain ⟨o, ho⟩ := handler_exists hr g len
  obtain ⟨length, saddr, sport, daddr, dport, text, visited, -, h2, h3, h4, h5, h6, h0, hs, -⟩ :=
    handler_inv ho
  refine ⟨o, ho, h0, fun len2 => ?_⟩
  obtain ⟨o2, ho2⟩ := handler_exists hr g len2
  obtain ⟨length', saddr', sport', daddr', dport', text', visited', -, k2, k3, k4, k5, k6, k0,
    ks, -⟩ := handler_inv ho2
  rw [h2] at k2; rw [h3] at k3; rw [h4] at k4; rw [h5] at k5; rw [h6] at k6
  simp only [Option.some.injEq, Prod.mk.injEq] at k2 k3 k4 k5 k6
  obtain ⟨rfl, rfl⟩ := k6
  subst k2 k3 k4 k5
  rw [ho2, Option.map_some', k0, ks, hs]

/-- Witness for the amended C2, at the call of the counterexample. -/
theorem frame_len_is_not_checked_witness :
    (10 : Int) < (ethIPv4.sizeof_full_header : Int) ∧
    ∃ o, handler ethIPv4 Globals.init helloFrame 10 = some o ∧ o.status = 0 ∧
      ∀ len2, (handler ethIPv4 Globals.init helloFrame len2).map
        (fun o2 => (o2.status, o2.send)) = some (0, o.send) :=
  ⟨by decide, frame_len_is_not_checked ethIPv4 Globals.init helloFrame 10 (by decide)⟩

/-- C3, counterexample: the frame is the 47 bytes of headers and `hello`, the
payload filling it up to `len = 47` with no NUL inside; building the response
string reads index 47, the byte behind the frame. -/
theorem string_read_passes_len :
    ∃ o, handler ethIPv4 Globals.init helloFrame 47 = some o ∧
      helloFrame.take 47 = headers 0 14 ++ lit "hello" ∧
      o.stringReads = [42, 43, 44, 45, 46, 47] ∧ ∃ i ∈ o.stringReads, (47 : Int) ≤ (i : Int) :=
  ⟨_, rfl, by decide, by decide, 47, by decide, by decide⟩

/-- C3, amended: `len` does not bound the reads.  Building the response string
reads the bytes at the indexes `sizeof(UDP::full_header)` to
`sizeof(UDP::full_header) + n`, where the byte at the last index is the first NUL
from `sizeof(UDP::full_header)` on; these reads stay below `len` exactly when
that NUL lies below `len`. -/
theorem string_reads_run_to_first_nul (L : Layout) (g : Globals) (data : List Byte) (len : Int)
    (o : Handled) (h : handler L g data len = some o) :
    o.stringReads = List.range' L.sizeof_full_header (o.printed.length + 1) ∧
    (data.drop L.sizeof_full_header).take o.printed.length = o.printed ∧
    (∀ b ∈ o.printed, b ≠ 0) ∧
    data[L.sizeof_full_header + o.printed.length]? = some 0 ∧
    ((∀ i ∈ o.stringReads, L.sizeof_full_header ≤ i ∧ (i : Int) < len) ↔
      ((L.sizeof_full_header + o.printed.length : Nat) : Int) < len) := by
  obtain ⟨length, saddr, sport, daddr, dport, text, visited, -, -, -, -, -, h6, -, -, -, -,
    -, -, -, -, hp, hv, -⟩ := handler_inv h
  obtain ⟨hw, hnz, rest, hrest⟩ := scan_some h6
  rw [hp, hv, hw]
  refine ⟨rfl, ?_, hnz, ?_, ?_⟩
  · rw [hrest]; simp
  · rw [← List.getElem?_drop, hrest, List.getElem?_append_right (Nat.le_refl _)]
    simp
  · constructor
    · intro hall
      have := hall (L.sizeof_full_header + text.length)
        (List.mem_range'.2 ⟨text.length, by omega, by omega⟩)
      exact this.2
    · intro hlt i hi
      obtain ⟨k, hk, rfl⟩ := List.mem_range'.1 hi
      constructor
      · omega
      · push_cast at hlt ⊢
        omega

/-- Witness for the amended C3, at the call of the counterexample. -/
theorem string_reads_run_to_first_nul_witness :
    ∃ o, handler ethIPv4 Globals.init helloFrame 47 = some o ∧
      o.stringReads = List.range' 42 (o.printed.length + 1) ∧
      helloFrame[42 + o.printed.length]? = some 0 := by
  obtain ⟨o, ho⟩ := handler_exists (by decide : Readable ethIPv4 helloFrame) Globals.init 47
  have hw := string_reads_run_to_first_nul ethIPv4 Globals.init helloFrame 47 o ho
  exact ⟨o, ho, hw.1, hw.2.2.2.1⟩

/-- C4, counterexample: a datagram whose UDP length field is 0, a payload
length of -8, is answered like any other. -/
theorem negative_payload_len_is_answered :
    ∃ o, handler ethIPv4 Globals.init (headers 0 0 ++ lit "hello" ++ [0]) 48 = some o ∧
      o.data_len - (ethIPv4.sizeof_udp_header : Int) = -8 ∧ o.status = 0 ∧
      o.send.buffer = some 0 ∧ o.send.length = 61 ∧ o.replyCells.length = 61 :=
  ⟨_, rfl, by decide, by decide, by decide, by decide, by decide⟩

/-- C4, amended: the declared length is read and reported, never tested.  For
every call, whatever its declared length (one that makes the payload length
negative or larger than `len - sizeof(UDP::full_header)` included), on memory
that holds the header fields and a NUL-terminated string behind them, the
handler returns 0, allocates the reply buffer (a live block of `bufsize` cells,
at least `Ethernet::minimum_payload`) and passes it to `udp_send`. -/
theorem declared_length_is_not_checked (L : Layout) (g : Globals) (data : List Byte) (len : Int)
    (length : Nat) (hl : load16 data L.length_at = some length)
    (hr : Readable L data) :
    ∃ o, handler L g data len = some o ∧ o.status = 0 ∧
      o.data_len = ((bswap16 length : Nat) : Int) ∧
      o.send.buffer = o.globals.buf ∧ o.send.length = o.globals.bufsize ∧
      (∃ p, o.send.buffer = some p ∧
        o.globals.heap.get? p = some { cells := o.replyCells, live := true }) ∧
      (o.replyCells.length : Int) = o.send.length ∧
      (L.minimum_payload : Int) ≤ o.send.length := by
  obtain ⟨o, ho⟩ := handler_exists hr g len
  obtain ⟨length', saddr, sport, daddr, dport, text, visited, h1, -, -, -, -, h6, h0, hs, hg, -,
    hd, -⟩ := handler_inv ho
  rw [hl] at h1
  simp only [Option.some.injEq] at h1
  subst h1
  have hc := replyCells_eq ho h6
  have hget : ((retire g).heap ++ [({ cells := replyBuf L text, live := true } : Block)]).get?
      g.heap.length = some { cells := replyBuf L text, live := true } := by
    rw [← retire_heap_length g]
    simp
  refine ⟨o, ho, h0, hd, ?_, ?_, ⟨g.heap.length, ?_, ?_⟩, ?_, ?_⟩
  · rw [hs, hg]
  · rw [hs, hg]
  · rw [hs]
  · rw [hg, hc]; exact hget
  · rw [hc, hs]; exact length_replyBuf L text
  · rw [hs]; exact minimum_le_bufsizeOf L text

/-- Witness for the amended C4, at the call of the counterexample. -/
theorem declared_length_is_not_checked_witness :
    ((bswap16 0 : Nat) : Int) - (ethIPv4.sizeof_udp_header : Int) < 0 ∧
    ∃ o, handler ethIPv4 Globals.init (headers 0 0 ++ lit "hello" ++ [0]) 48 = some o ∧
      o.status = 0 ∧ (ethIPv4.minimum_payload : Int) ≤ o.send.length := by
  obtain ⟨o, ho, h0, -, -, -, -, -, hm⟩ :=
    declared_length_is_not_checked ethIPv4 Globals.init (headers 0 0 ++ lit "hello" ++ [0]) 48 0
      (by decide) (by decide)
  exact ⟨by decide, o, ho, h0, hm⟩

/-- C6, counterexample: for the payload `hello` the 19 bytes of the reply buffer
from offset 42 on are `You said: 'hello' ` and a newline, not `You said: 'hello'`. -/
theorem reply_payload_has_a_tail :
    ∃ o, handler ethIPv4 Globals.init helloFrame 48 = some o ∧ o.sending.1 = 19 ∧
      o.replyPayload 42 o.sending.1 = (lit "You said: 'hello' \n").map some ∧
      o.replyPayload 42 o.sending.1 ≠ (lit "You said: 'hello'").map some :=
  ⟨_, rfl, by decide, by decide, by decide⟩

/-- C6, amended: for every frame whose payload is a text `p`, NUL-terminated and
with no NUL inside, the response has `p.length + 14` bytes and these bytes of the
reply buffer, from offset `sizeof(UDP::full_header)` on, are `You said: '`, then
`p`, then a quote, a blank and a newline (the sum of the sizes fitting the
`int bufsize`). -/
theorem reply_payload_is_quoted_text (L : Layout) (g : Globals) (hd p rest : List Byte)
    (len : Int) (hhd : hd.length = L.sizeof_full_header) (hp : ∀ b ∈ p, b ≠ 0)
    (hr : HeaderReadable L (hd ++ p ++ 0 :: rest))
    (hfit : L.sizeof_full_header + (p.length + 14) < 2 ^ 31) :
    ∃ o, handler L g (hd ++ p ++ 0 :: rest) len = some o ∧
      o.printed = p ∧ o.sending.1 = p.length + 14 ∧
      o.replyPayload L.sizeof_full_header o.sending.1 =
        (lit "You said: '" ++ p ++ lit "' \n").map some := by
  have ht : c_str (hd ++ p ++ 0 :: rest) L.sizeof_full_header =
      some (p, List.range' L.sizeof_full_header (p.length + 1)) := by
    unfold c_str
    rw [List.append_assoc, List.drop_left' hhd]
    exact scan_terminated p rest _ hp
  have hread : Readable L (hd ++ p ++ 0 :: rest) := ⟨hr, by rw [ht]; rfl⟩
  obtain ⟨o, ho⟩ := handler_exists hread g len
  have hc := replyCells_eq ho ht
  obtain ⟨length, saddr, sport, daddr, dport, text, visited, -, -, -, -, -, h6, -, -, -, -,
    -, -, -, hsend, hpr, -⟩ := handler_inv ho
  rw [ht] at h6
  simp only [Option.some.injEq, Prod.mk.injEq] at h6
  obtain ⟨rfl, rfl⟩ := h6
  have hlen := length_response p
  have hpay := @payload_of_replyBuf L p (by rw [hlen]; exact hfit)
  refine ⟨o, ho, hpr, ?_, ?_⟩
  · rw [hsend]; exact hlen
  · rw [hsend]
    simp only [Handled.replyPayload, hc]
    exact hpay

/-- Witness for the amended C6: the payload `hello`. -/
theorem reply_payload_is_quoted_text_witness :
    ∃ o, handler ethIPv4 Globals.init (headers 0 14 ++ lit "hello" ++ 0 :: []) 48 = some o ∧
      o.printed = lit "hello" ∧ o.sending.1 = (lit "hello").length + 14 ∧
      o.replyPayload ethIPv4.sizeof_full_header o.sending.1 =
        (lit "You said: '" ++ lit "hello" ++ lit "' \n").map some :=
  reply_payload_is_quoted_text ethIPv4 Globals.init (headers 0 14) (lit "hello") [] 48
    (by decide) (by decide) (by decide) (by decide)

/-- C7, counterexample: the 47 byte frame of headers and `hello`, declared UDP
length 13 (a payload of 5 bytes that ends with the frame), handled twice from
the state at service start: with a NUL right behind the frame the reply has 61
bytes and the payload of `hello`, with `XY` and a NUL behind it the reply has 63
bytes and the payload of `helloXY`. -/
theorem reply_depends_on_bytes_behind_frame :
    (headers 0 13 ++ lit "hello").length = 47 ∧
    ∃ o1 o2,
      handler ethIPv4 Globals.init ((headers 0 13 ++ lit "hello") ++ [0]) 47 = some o1 ∧
      handler ethIPv4 Globals.init ((headers 0 13 ++ lit "hello") ++ [88, 89, 0]) 47 = some o2 ∧
      o1.data_len - 8 = 5 ∧ o2.data_len - 8 = 5 ∧
      o1.send.length = 61 ∧ o2.send.length = 63 ∧
      o1.sending.1 = 19 ∧ o2.sending.1 = 21 ∧
      o1.replyPayload 42 o1.sending.1 = (lit "You said: 'hello' \n").map some ∧
      o2.replyPayload 42 o2.sending.1 = (lit "You said: 'helloXY' \n").map some ∧
      o1.replyPayload 42 o1.sending.1 ≠ o2.replyPayload 42 o2.sending.1 :=
  ⟨by decide, _, _, rfl, rfl, by decide, by decide, by decide, by decide, by decide, by decide,
    by decide, by decide, by decide⟩

/-- C7, amended: a frame that holds the header fields and a NUL-terminated text,
handled twice, from any two states of the globals and the heap and with anything
behind it in memory, gets two replies of the same length whose payloads, the
`response.size()` bytes from offset `sizeof(UDP::full_header)` on, are the same;
so are the two buffers cell by cell. -/
theorem reply_is_independent_of_slot (L : Layout) (g1 g2 : Globals)
    (frame behind1 behind2 : List Byte) (len : Int) (hr : Readable L frame) :
    ∃ o1 o2, handler L g1 (frame ++ behind1) len = some o1 ∧
      handler L g2 (frame ++ behind2) len = some o2 ∧
      o1.send.length = o2.send.length ∧ o1.sending.1 = o2.sending.1 ∧
      o1.replyPayload L.sizeof_full_header o1.sending.1 =
        o2.replyPayload L.sizeof_full_header o2.sending.1 ∧
      o1.replyCells = o2.replyCells := by
  obtain ⟨o1, ho1⟩ := handler_exists hr g1 len
  obtain ⟨o2, ho2⟩ := handler_exists hr g2 len
  obtain ⟨length, saddr, sport, daddr, dport, text, visited, -, -, -, -, -, h6, -, hs1, -, -,
    -, -, -, hsend1, -⟩ := handler_inv ho1
  obtain ⟨length2, saddr2, sport2, daddr2, dport2, text2, visited2, -, -, -, -, -, k6, -, hs2,
    -, -, -, -, -, hsend2, -⟩ := handler_inv ho2
  have hc1 := replyCells_eq ho1 h6
  rw [h6] at k6
  simp only [Option.some.injEq, Prod.mk.injEq] at k6
  obtain ⟨rfl, rfl⟩ := k6
  have hc2 := replyCells_eq ho2 h6
  refine ⟨o1, o2, ?_, ?_, ?_, ?_, ?_, ?_⟩
  · rw [handler_append hr]; exact ho1
  · rw [handler_append hr]; exact ho2
  · rw [hs1, hs2]
  · rw [hsend1, hsend2]
  · simp only [Handled.replyPayload, hc1, hc2, hsend1, hsend2]
  · rw [hc1, hc2]

/-- Witness for the amended C7: the `hello` frame handled at service start, and handled when
the slot holds the buffer of an earlier request and other bytes lie behind the
frame. -/
theorem reply_is_independent_of_slot_witness :
    ∃ o1 o2, handler ethIPv4 Globals.init (helloFrame ++ []) 48 = some o1 ∧
      handler ethIPv4 { heap := [{ cells := [some 7, none], live := true }], buf := some 0,
                        bufsize := 2, prev_data := none } (helloFrame ++ [88, 89]) 48 = some o2 ∧
      o1.send.length = o2.send.length ∧ o1.sending.1 = o2.sending.1 ∧
      o1.replyPayload ethIPv4.sizeof_full_header o1.sending.1 =
        o2.replyPayload ethIPv4.sizeof_full_header o2.sending.1 ∧
      o1.replyCells = o2.replyCells :=
  reply_is_independent_of_slot ethIPv4 Globals.init _ helloFrame [] [88, 89] 48 (by decide)

/-- C9, the defect: the `strcpy` stores the response and its terminator at the
indexes `sizeof(UDP::full_header)` to `sizeof(UDP::full_header) + response.size()`,
the terminator at the last of them.  With padding that index is below the size
of the array; with no padding it is the size of the array, so the terminator is
stored one past the last cell (sizes fitting the `int bufsize`). -/
theorem strcpy_terminator_lands_past_the_buffer (L : Layout) (g : Globals) (data : List Byte)
    (len : Int) (o : Handled) (h : handler L g data len = some o)
    (hfit : L.sizeof_full_header + o.sending.1 < 2 ^ 31) :
    (∀ w ∈ o.writes, L.sizeof_full_header ≤ w.1 ∧ w.1 ≤ L.sizeof_full_header + o.sending.1) ∧
    (L.sizeof_full_header + o.sending.1, (0 : Byte)) ∈ o.writes ∧
    (L.sizeof_full_header + o.sending.1 < L.minimum_payload →
      L.sizeof_full_header + o.sending.1 < o.replyCells.length) ∧
    (L.minimum_payload ≤ L.sizeof_full_header + o.sending.1 →
      o.replyCells.length = L.sizeof_full_header + o.sending.1) := by
  obtain ⟨length, saddr, sport, daddr, dport, text, visited, -, -, -, -, -, h6, -, -, -, -,
    -, -, -, hsend, -, -, hw⟩ := handler_inv h
  have hc := replyCells_eq h h6
  rw [hsend] at hfit
  simp only at hfit
  have hb := bufsizeOf_of_fit hfit
  have hl := length_replyBuf L text
  rw [hc, hsend, hw]
  refine ⟨strcpyWrites_range _ _, strcpyWrites_terminator _ _, ?_, ?_⟩
  · intro hpad
    simp only at hpad
    omega
  · intro hnopad
    simp only at hnopad
    omega

/-- Witness for C9: answering the `hello` frame, the array has 61 cells and the
`strcpy` stores a NUL at index 61. -/
theorem strcpy_terminator_lands_past_the_buffer_witness :
    ∃ o, handler ethIPv4 Globals.init helloFrame 48 = some o ∧
      o.replyCells.length = 61 ∧ (61, (0 : Byte)) ∈ o.writes := by
  have e : handler ethIPv4 Globals.init helloFrame 48 = some _ := rfl
  have hw := strcpy_terminator_lands_past_the_buffer ethIPv4 Globals.init helloFrame 48 _ e
    (by decide)
  exact ⟨_, e, hw.2.2.2 (by decide), hw.2.1⟩

theorem bswap16_load (b0 b1 : Byte) : bswap16 (b0.val + 256 * b1.val) = 256 * b0.val + b1.val := by
  have h0 := b0.isLt
  have h1 := b1.isLt
  unfold bswap16
  omega

/-- C10, the defect: with `b0 b1` the bytes of the UDP length field in wire order,
`data_len`, the value the handler reports, is the swapped `256*b0 + b1`, but
`data_end` is computed from the field as loaded, `b0 + 256*b1`, and lies at
offset `b0 + 256*b1 - sizeof(UDP::udp_header) - 1`; that is the offset
`data_len - sizeof(UDP::udp_header) - 1` only when the two bytes are equal. -/
theorem data_end_uses_unswapped_length (L : Layout) (g : Globals) (data : List Byte)
    (len : Int) (o : Handled) (b0 b1 : Byte) (h : handler L g data len = some o)
    (h0 : data[L.length_at]? = some b0) (h1 : data[L.length_at + 1]? = some b1) :
    o.data_len = 256 * (b0.val : Int) + (b1.val : Int) ∧ o.got.data_len = o.data_len ∧
    o.data_end = ((b0.val : Int) + 256 * (b1.val : Int)) - (L.sizeof_udp_header : Int) - 1 ∧
    (o.data_end = o.data_len - (L.sizeof_udp_header : Int) - 1 ↔ b0 = b1) := by
  obtain ⟨length, saddr, sport, daddr, dport, text, visited, hl, -, -, -, -, -, -, -, -, -,
    hdl, hde, hgot, -⟩ := handler_inv h
  have hload : load16 data L.length_at = some (b0.val + 256 * b1.val) := by
    simp [load16, h0, h1]
  rw [hload] at hl
  simp only [Option.some.injEq] at hl
  subst hl
  rw [bswap16_load] at hdl
  have hb0 := b0.isLt
  have hb1 := b1.isLt
  refine ⟨?_, hgot, ?_, ?_⟩
  · rw [hdl]; push_cast; ring
  · rw [hde]; push_cast; ring
  · rw [hde, hdl]
    push_cast
    constructor
    · intro heq
      apply Fin.ext
      omega
    · intro heq
      subst heq
      ring

/-- Witness for C10: the `hello` frame declares a UDP length of 14, bytes `00 0E`;
`data_len` is 14 and `data_end` lies at offset 3575, not at 14 - 8 - 1 = 5. -/
theorem data_end_uses_unswapped_length_witness :
    ∃ o, handler ethIPv4 Globals.init helloFrame 48 = some o ∧
      o.data_len = 14 ∧ o.data_end = 3575 ∧
      o.data_end ≠ o.data_len - (ethIPv4.sizeof_udp_header : Int) - 1 := by
  have e : handler ethIPv4 Globals.init helloFrame 48 = some _ := rfl
  have hw := data_end_uses_unswapped_length ethIPv4 Globals.init helloFrame 48 _ 0 14 e
    (by decide) (by decide)
  refine ⟨_, e, hw.1, hw.2.2.1, fun hc => ?_⟩
  exact absurd (hw.2.2.2.1 hc) (by decide)

/-! ## The buffer slot over a sequence of requests -/

theorem liveCount_of_released {heap : List Block} (h : ∀ b ∈ heap, b.live = false) :
    liveCount heap = 0 := by
  induction heap with
  | nil => rfl
  | cons b bs ih =>
    have hb : b.live = false := h b (List.mem_cons_self _ _)
    have hbs := ih (fun x hx => h x (List.mem_cons_of_mem _ hx))
    unfold liveCount at hbs ⊢
    simp [List.filter, hb, hbs]

theorem liveCount_append (a b : List Block) : liveCount (a ++ b) = liveCount a + liveCount b := by
  simp [liveCount]

theorem slot_liveCount_le {g : Globals} (hs : Slot g) : liveCount g.heap ≤ 1 := by
  rcases hs with ⟨-, hall⟩ | ⟨pre, last, hh, -, hl, hall⟩
  · rw [liveCount_of_released hall]; omega
  · rw [hh, liveCount_append, liveCount_of_released hall]
    simp [liveCount, hl]

theorem retire_released {g : Globals} (hs : Slot g) : ∀ b ∈ (retire g).heap, b.live = false := by
  obtain ⟨heap, buf, bufsize, prev⟩ := g
  rcases hs with ⟨hb, hall⟩ | ⟨pre, last, hh, hb, -, hall⟩
  · simp only at hb hall
    subst hb
    simpa [retire] using hall
  · simp only at hh hb hall
    subst hh hb
    simp only [retire, modifyAt_append_last]
    intro b hb
    rcases List.mem_append.1 hb with h | h
    · exact hall b h
    · simp only [List.mem_singleton] at h
      subst h
      rfl

theorem slot_init : Slot Globals.init :=
  Or.inl ⟨rfl, by simp [Globals.init]⟩

theorem handler_slot {L : Layout} {g : Globals} {data : List Byte} {len : Int} {o : Handled}
    (hs : Slot g) (h : handler L g data len = some o) :
    Slot o.globals ∧ (∀ s ∈ o.steps, liveCount s.heap ≤ 1) ∧
      o.globals.heap.length = g.heap.length + 1 := by
  obtain ⟨length, saddr, sport, daddr, dport, text, visited, -, -, -, -, -, -, -, -, hg, hsteps,
    -⟩ := handler_inv h
  have hrel := retire_released hs
  have h0 := liveCount_of_released hrel
  have hle := slot_liveCount_le hs
  refine ⟨?_, ?_, ?_⟩
  · refine Or.inr ⟨(retire g).heap, { cells := replyBuf L text, live := true }, ?_, ?_, rfl, hrel⟩
    · rw [hg]
    · rw [hg, retire_heap_length]
  · rw [hsteps, hg]
    intro s hmem
    simp only [List.mem_cons, List.mem_singleton, List.not_mem_nil, or_false] at hmem
    rcases hmem with rfl | rfl | rfl | rfl | rfl
    · exact hle
    · exact hle
    · simp only [h0]; omega
    · simp only [allocate, liveCount_append, h0]
      simp [liveCount]
    · simp only [liveCount_append, h0]
      simp [liveCount]
  · rw [hg]
    simp [retire_heap_length]

theorem run_slot (L : Layout) (fs : List (List Byte × Int)) :
    ∀ g, Slot g → (∀ f ∈ fs, Readable L f.1) →
      ∃ g2, run L g fs = some g2 ∧ Slot g2 ∧ g2.heap.length = g.heap.length + fs.length ∧
        ∀ s ∈ runSteps L g fs, liveCount s.heap ≤ 1 := by
  induction fs with
  | nil =>
    intro g hs _
    exact ⟨g, rfl, hs, rfl, by simp [runSteps]⟩
  | cons f fs ih =>
    intro g hs hr
    obtain ⟨o, ho⟩ := handler_exists (hr f (List.mem_cons_self _ _)) g f.2
    obtain ⟨hs2, hsteps, hlen⟩ := handler_slot hs ho
    obtain ⟨g2, hrun, hslot, hl2, hst2⟩ :=
      ih o.globals hs2 (fun x hx => hr x (List.mem_cons_of_mem _ hx))
    refine ⟨g2, ?_, hslot, ?_, ?_⟩
    · simp only [run, ho, hrun]
    · rw [hl2, hlen, List.length_cons]; omega
    · intro s hmem
      simp only [runSteps, ho, List.mem_append] at hmem
      rcases hmem with hm | hm
      · exact hsteps s hm
      · exact hst2 s hm

theorem run_append (L : Layout) (fs : List (List Byte × Int)) (f : List Byte × Int) :
    ∀ g, run L g (fs ++ [f]) =
      (run L g fs).bind (fun g2 => (handler L g2 f.1 f.2).map (fun o => o.globals)) := by
  induction fs with
  | nil =>
    intro g
    simp only [List.nil_append, run, Option.some_bind]
    cases handler L g f.1 f.2 <;> rfl
  | cons x xs ih =>
    intro g
    simp only [List.cons_append, run]
    cases handler L g x.1 x.2 with
    | none => rfl
    | some o => exact ih o.globals

/-- C8: from the state at service start, after the requests `frames` and then
`last`, all of them readable, run one after the other: one block is live, the
heap holds one block per request and all but the newest are released, `buf`
points to the newest, whose cells are the buffer of the reply to `last` and
`bufsize` its length; and in no state passed through on the way is more than one
block live. -/
theorem one_live_buffer_after_requests (L : Layout) (frames : List (List Byte × Int))
    (last : List Byte × Int) (hr : ∀ f ∈ frames ++ [last], Readable L f.1) :
    ∃ g o, run L Globals.init (frames ++ [last]) = some g ∧
      handler L Globals.init last.1 last.2 = some o ∧
      liveCount g.heap = 1 ∧
      g.heap.length = frames.length + 1 ∧
      (∀ q b, q < frames.length → g.heap.get? q = some b → b.live = false) ∧
      g.buf = some frames.length ∧
      g.heap.get? frames.length = some { cells := o.replyCells, live := true } ∧
      g.bufsize = o.send.length ∧
      (o.replyCells.length : Int) = o.send.length ∧
      ∀ s ∈ runSteps L Globals.init (frames ++ [last]), liveCount s.heap ≤ 1 := by
  have hrl : Readable L last.1 := hr last (by simp)
  obtain ⟨g1, hrun1, hslot1, hlen1, -⟩ :=
    run_slot L frames Globals.init slot_init (fun f hf => hr f (List.mem_append_left _ hf))
  obtain ⟨_, -, -, -, hsteps⟩ := run_slot L (frames ++ [last]) Globals.init slot_init hr
  obtain ⟨o1, ho1⟩ := handler_exists hrl g1 last.2
  obtain ⟨o, ho⟩ := handler_exists hrl Globals.init last.2
  obtain ⟨length, saddr, sport, daddr, dport, text, visited, -, -, -, -, -, h6, -, -, hg1, -⟩ :=
    handler_inv ho1
  obtain ⟨length', saddr', sport', daddr', dport', text', visited', -, -, -, -, -, k6, -, hs,
    -⟩ := handler_inv ho
  have hc := replyCells_eq ho h6
  rw [h6] at k6
  simp only [Option.some.injEq, Prod.mk.injEq] at k6
  obtain ⟨rfl, rfl⟩ := k6
  have hrel := retire_released hslot1
  have hn : g1.heap.length = frames.length := by
    rw [hlen1]; simp [Globals.init]
  have hrn : (retire g1).heap.length = frames.length := by
    rw [retire_heap_length, hn]
  refine ⟨o1.globals, o, ?_, ho, ?_, ?_, ?_, ?_, ?_, ?_, ?_, hsteps⟩
  · rw [run_append, hrun1, Option.some_bind, ho1, Option.map_some']
  · rw [hg1]
    simp only [liveCount_append, liveCount_of_released hrel]
    simp [liveCount]
  · rw [hg1]
    simp [hrn]
  · intro q b hq hget
    rw [hg1] at hget
    simp only at hget
    rw [List.get?_eq_getElem?, List.getElem?_append_left (by omega)] at hget
    exact hrel b (List.getElem?_mem hget)
  · rw [hg1, hn]
  · rw [hg1, hc]
    simp only
    rw [← hrn]
    simp
  · rw [hg1, hs]
  · rw [hc, hs]
    exact length_replyBuf L text

/-- Witness for C8: two `hello` requests and then a request with the payload `hi`. -/
theorem one_live_buffer_after_requests_witness :
    ∃ g o, run ethIPv4 Globals.init
        ([(helloFrame, 48), (helloFrame, 48)] ++ [(headers 0 11 ++ lit "hi" ++ [0], 45)]) = some g ∧
      handler ethIPv4 Globals.init (headers 0 11 ++ lit "hi" ++ [0]) 45 = some o ∧
      liveCount g.heap = 1 ∧ g.heap.length = 3 ∧ g.buf = some 2 ∧
      g.heap.get? 2 = some { cells := o.replyCells, live := true } ∧
      g.bufsize = o.send.length := by
  obtain ⟨g, o, h1, h2, h3, h4, -, h6, h7, h8, -⟩ :=
    one_live_buffer_after_requests ethIPv4 [(helloFrame, 48), (helloFrame, 48)]
      (headers 0 11 ++ lit "hi" ++ [0], 45) (by decide)
  exact ⟨g, o, h1, h2, h3, h4, h6, h7, h8⟩

end Seed
